import Mathlib

/-!
Verification of the training-orchestration core of the
`phoneme_encoder_decoder` repository (files `train/train.py`,
`processing_utils/feature_data_from_mat.py`, `scripts/train_rnn_gpu.py`)
against its natural-language specification.

The Python code is shallowly embedded: numpy arrays become `Tensor`
(a flat value list plus a shape), a Keras model becomes its list of
per-layer weight-tensor lists, Python dicts become association lists,
and every random draw of `np.random` / the k-fold partitioner is made
explicit as a parameter or a threaded PRNG state.
-/

/-- A numpy array as used by the training code: the flattened values
(`w.flat`) together with the shape.  Values are modelled as integers;
none of the verified properties depends on float arithmetic. -/
structure Tensor where
  shape : List Nat
  data : List Int
  deriving DecidableEq

instance : Inhabited Tensor := ⟨⟨[], []⟩⟩

/-- One step of the list comprehension in `shuffle_weights`
(train.py line 46): `np.random.permutation(w.flat).reshape(w.shape)`.
The random draw is supplied explicitly as `σ`, the list of source
indices that `np.random.permutation` chose (a permutation of
`List.range w.data.length`); `reshape` to the original shape keeps the
shape field and reorders only the flat data. -/
def permuteTensor (σ : List Nat) (w : Tensor) : Tensor :=
  { shape := w.shape, data := σ.map (fun i => w.data.getD i 0) }

/-- A Keras model, reduced to what `shuffle_weights` touches: the list
of layers, each layer being its list of weight tensors. -/
structure KModel where
  layers : List (List Tensor)
  deriving DecidableEq

instance : Inhabited KModel := ⟨⟨[]⟩⟩

/-- `model.get_weights()`: Keras returns the concatenation of every
layer's weight list, in layer order. -/
def KModel.get_weights (m : KModel) : List Tensor :=
  m.layers.flatten

/-- Splits a flat list back into chunks of the given sizes (how Keras
`model.set_weights` distributes a flat weight list over the layers). -/
def splitBySizes {α : Type} : List Nat → List α → List (List α)
  | [], _ => []
  | n :: ns, xs => xs.take n :: splitBySizes ns (xs.drop n)

/-- `model.set_weights(ws)`: the flat tensor list is distributed back
over the layers, each layer taking as many tensors as it had. -/
def KModel.set_weights (m : KModel) (ws : List Tensor) : KModel :=
  { layers := splitBySizes (m.layers.map List.length) ws }

/-- `model.layers[i].set_weights(ws)`: replaces layer `i`'s weight
list, leaving every other layer untouched. -/
def KModel.layer_set_weights (m : KModel) (i : Nat) (ws : List Tensor) : KModel :=
  { layers := m.layers.set i ws }

/-- `shuffle_weights(model, weights, layer_idx)` (train.py lines 20-53).
`rand` supplies the index permutations drawn by `np.random.permutation`,
one per weight tensor.  When `weights` is `None` the tensors are read
from the whole model or from layer `layer_idx`; the permuted tensors are
then written back to the whole model or to that layer. -/
def shuffle_weights (rand : List (List Nat)) (model : KModel)
    (weights : Option (List Tensor)) (layer_idx : Option Nat) : KModel :=
  let ws :=
    match weights with
    | some w => w
    | none =>
      match layer_idx with
      | none => model.get_weights
      | some i => model.layers.getD i []
  let ws2 := List.zipWith permuteTensor rand ws
  match layer_idx with
  | none => model.set_weights ws2
  | some i => model.layer_set_weights i ws2

/-- Mapping `fun i => l.getD i d` over `List.range l.length` rebuilds `l`. -/
theorem map_getD_range {α : Type} (l : List α) (d : α) :
    (List.range l.length).map (fun i => l.getD i d) = l := by
  induction l with
  | nil => rfl
  | cons a t ih =>
    simp only [List.length_cons, List.range_succ_eq_map, List.map_cons, List.map_map]
    refine congrArg₂ List.cons rfl ?_
    calc List.map ((fun i => (a :: t).getD i d) ∘ Nat.succ) (List.range t.length)
        = List.map (fun i => t.getD i d) (List.range t.length) := by
          apply List.map_congr_left
          intro i _
          simp [List.getD]
      _ = t := ih

/-- Reading a list at a permutation of all of its positions yields a
permutation of the list. -/
theorem perm_map_getD {α : Type} (σ : List Nat) (l : List α) (d : α)
    (h : σ.Perm (List.range l.length)) :
    (σ.map (fun i => l.getD i d)).Perm l := by
  have h2 := h.map (fun i => l.getD i d)
  rwa [map_getD_range] at h2

/-- C1: every weight tensor written back by
`shuffle_weights(model, weights, layer_idx)` has exactly the shape of the
corresponding original tensor and its values are a permutation of that
tensor's values (the per-tensor multiset of values is preserved); the
list written back — to the whole model or to the selected layer — is
exactly the list of permuted tensors. -/
theorem shuffle_weights_preserves_shape_and_values
    (rand : List (List Nat)) (model : KModel) (ws : List Tensor)
    (layer_idx : Option Nat)
    (hlen : rand.length = ws.length)
    (hperm : ∀ k, k < ws.length →
      (rand.getD k []).Perm (List.range ((ws.getD k default).data.length))) :
    (∀ k, k < ws.length →
      ((List.zipWith permuteTensor rand ws).getD k default).shape
        = (ws.getD k default).shape ∧
      ((List.zipWith permuteTensor rand ws).getD k default).data.Perm
        (ws.getD k default).data) ∧
    shuffle_weights rand model (some ws) layer_idx =
      (match layer_idx with
       | none => model.set_weights (List.zipWith permuteTensor rand ws)
       | some i => model.layer_set_weights i (List.zipWith permuteTensor rand ws)) := by
  constructor
  · intro k hk
    have hkr : k < rand.length := by omega
    have hkz : k < (List.zipWith permuteTensor rand ws).length := by
      rw [List.length_zipWith]; omega
    have hz : (List.zipWith permuteTensor rand ws).getD k default
        = permuteTensor (rand.getD k []) (ws.getD k default) := by
      rw [List.getD_eq_getElem _ _ hkz, List.getD_eq_getElem _ _ hkr,
        List.getD_eq_getElem _ _ hk, List.getElem_zipWith]
    rw [hz]
    refine ⟨rfl, ?_⟩
    exact perm_map_getD _ _ _ (hperm k hk)
  · cases layer_idx <;> rfl

/-- Closed instance of C1 at a concrete two-element tensor and the swap
permutation. -/
theorem shuffle_weights_preserves_shape_and_values_witness :
    ((List.zipWith permuteTensor [[1, 0]] [Tensor.mk [2] [5, 7]]).getD 0 default).shape
      = (Tensor.mk [2] [5, 7]).shape ∧
    ((List.zipWith permuteTensor [[1, 0]] [Tensor.mk [2] [5, 7]]).getD 0 default).data.Perm
      (Tensor.mk [2] [5, 7]).data :=
  (shuffle_weights_preserves_shape_and_values [[1, 0]] ⟨[]⟩ [Tensor.mk [2] [5, 7]]
    none (by decide) (by decide)).1 0 (by decide)

/-- C10: `shuffle_weights(model, weights=None, layer_idx=i)` replaces
only layer `i`'s weights: the weight list of every other layer is
unchanged. -/
theorem shuffle_weights_other_layers_unchanged
    (rand : List (List Nat)) (model : KModel) (i : Nat)
    (hi : i < model.layers.length) :
    ∀ j, j ≠ i →
      (shuffle_weights rand model none (some i)).layers.getD j []
        = model.layers.getD j [] := by
  intro j hj
  show (model.layers.set i _).getD j [] = model.layers.getD j []
  rw [List.getD_eq_getElem?_getD, List.getD_eq_getElem?_getD,
    List.getElem?_set_ne (fun h => hj h.symm)]

/-- Closed instance of C10: shuffling layer 0 of a two-layer model
leaves layer 1 untouched. -/
theorem shuffle_weights_other_layers_unchanged_witness :
    (shuffle_weights [[0]] ⟨[[Tensor.mk [1] [3]], [Tensor.mk [1] [4]]]⟩
      none (some 0)).layers.getD 1 []
      = (KModel.mk [[Tensor.mk [1] [3]], [Tensor.mk [1] [4]]]).layers.getD 1 [] :=
  shuffle_weights_other_layers_unchanged [[0]]
    ⟨[[Tensor.mk [1] [3]], [Tensor.mk [1] [4]]]⟩ 0 (by decide) 1 (by decide)

/-- The callbacks appearing in the k-fold trainer: the `EarlyStopping`
callback built once before the loops (train.py line 112) and the
`Seq2seqPredictCallback` built inside each single-fold call
(line 200), tagged with the flat index of the call that built it. -/
inductive Callback where
  | earlyStopping : Callback
  | seq2seqPredict (callIdx : Nat) : Callback
  deriving DecidableEq

/-- Whether a callback is a `Seq2seqPredictCallback`. -/
def Callback.isPredict : Callback → Bool
  | .seq2seqPredict _ => true
  | _ => false

/-- Callback handling of `train_seq2seq_single_fold` (train.py
lines 200-205): a fresh `Seq2seqPredictCallback` is built for this call;
when a `callbacks` list was passed, `callbacks.append` mutates that very
list object — a change the caller sees — otherwise a fresh one-element
list is made.  Returns the list handed to the fit routine together with
the caller's list object after the call. -/
def singleFoldCallbacks (cbState : Option (List Callback)) (callIdx : Nat) :
    List Callback × Option (List Callback) :=
  match cbState with
  | some l =>
    let l2 := l ++ [Callback.seq2seqPredict callIdx]
    (l2, some l2)
  | none => ([Callback.seq2seqPredict callIdx], none)

/-- The per-call callback lists produced when the `cb` object of
`train_seq2seq_kfold` is threaded through successive single-fold calls. -/
def kfoldCallbackLists (cbState : Option (List Callback)) :
    List Nat → List (List Callback)
  | [] => []
  | i :: is =>
    let p := singleFoldCallbacks cbState i
    p.1 :: kfoldCallbackLists p.2 is

/-- train.py lines 106-137: `cb` is `[EarlyStopping]` when `early_stop`
and `None` otherwise, and the same `cb` object is passed to all
`num_reps * num_folds` single-fold calls; this returns, per call, the
callbacks list handed to the fit routine. -/
def kfoldCallbacksRun (early_stop : Bool) (num_reps num_folds : Nat) :
    List (List Callback) :=
  kfoldCallbackLists
    (if early_stop then some [Callback.earlyStopping] else none)
    (List.range (num_reps * num_folds))

/-- With `callbacks=None` at every call (the `early_stop=False` path),
each single-fold call hands the fit routine exactly its own fresh
one-element callback list. -/
theorem kfoldCallbackLists_none (is : List Nat) :
    kfoldCallbackLists none is = is.map (fun i => [Callback.seq2seqPredict i]) := by
  induction is with
  | nil => rfl
  | cons a t ih => simp [kfoldCallbackLists, singleFoldCallbacks, ih]

/-- C3 counterexample: with `early_stop=True`, `num_reps=1`,
`num_folds=2`, the second single-fold call hands the fit routine a list
holding the EarlyStopping callback and TWO Seq2seqPredictCallbacks (the
first fold's stale one and its own), refuting that every invocation
receives exactly one prediction-tracking callback. -/
theorem kfold_second_fold_gets_two_predict_callbacks :
    kfoldCallbacksRun true 1 2
      = [[Callback.earlyStopping, Callback.seq2seqPredict 0],
         [Callback.earlyStopping, Callback.seq2seqPredict 0,
          Callback.seq2seqPredict 1]] ∧
    ((kfoldCallbacksRun true 1 2).getD 1 []).countP Callback.isPredict ≠ 1 := by
  decide

/-- C3 (amended): when `early_stop` is False, each single-fold call
issued by `train_seq2seq_kfold` hands the fit routine exactly one
`Seq2seqPredictCallback`, namely the one constructed by that call. -/
theorem kfold_one_predict_callback_without_early_stop
    (num_reps num_folds : Nat) :
    ∀ i, i < num_reps * num_folds →
      (kfoldCallbacksRun false num_reps num_folds).getD i []
          = [Callback.seq2seqPredict i] ∧
      ((kfoldCallbacksRun false num_reps num_folds).getD i []).countP
          Callback.isPredict = 1 := by
  intro i hi
  have h : (kfoldCallbacksRun false num_reps num_folds).getD i []
      = [Callback.seq2seqPredict i] := by
    rw [kfoldCallbacksRun]
    simp only [if_neg Bool.false_ne_true, kfoldCallbackLists_none]
    rw [List.getD_eq_getElem?_getD, List.getElem?_map, List.getElem?_range hi]
    rfl
  rw [h]
  exact ⟨rfl, rfl⟩

/-- Closed instance of amended C3 at `num_reps=1`, `num_folds=2`,
second call. -/
theorem kfold_one_predict_callback_without_early_stop_witness :
    (kfoldCallbacksRun false 1 2).getD 1 [] = [Callback.seq2seqPredict 1] ∧
    ((kfoldCallbacksRun false 1 2).getD 1 []).countP Callback.isPredict = 1 :=
  kfold_one_predict_callback_without_early_stop 1 2 1 (by decide)

/-- Events of one `train_seq2seq_kfold` run, in program order: `reset`
for the `shuffle_weights(train_model, weights=init_train_w)` call
(train.py line 129) and `trainFold r f` for the
`train_seq2seq_single_fold` call of repetition `r`, fold `f`
(line 131). -/
inductive TrainEvent where
  | reset : TrainEvent
  | trainFold (r f : Nat) : TrainEvent
  deriving DecidableEq

/-- The (repetition, fold) pairs iterated by the nested loops on
train.py lines 120 and 124, in order. -/
def kfoldPairs (num_reps num_folds : Nat) : List (Nat × Nat) :=
  (List.range num_reps).flatMap
    (fun r => (List.range num_folds).map (fun f => (r, f)))

/-- Event trace of `train_seq2seq_kfold`: every iteration of the inner
loop first resets the weights from `init_train_w`, then trains the
fold. -/
def kfoldTrace (num_reps num_folds : Nat) : List TrainEvent :=
  (kfoldPairs num_reps num_folds).flatMap
    (fun p => [TrainEvent.reset, TrainEvent.trainFold p.1 p.2])

/-- In a trace made of reset-then-train blocks, every train event is
immediately preceded by a reset event. -/
theorem trace_train_preceded_by_reset (ps : List (Nat × Nat)) :
    ∀ i r f,
      (ps.flatMap (fun p => [TrainEvent.reset, TrainEvent.trainFold p.1 p.2]))[i]?
          = some (TrainEvent.trainFold r f) →
      ∃ j, i = j + 1 ∧
        (ps.flatMap (fun p => [TrainEvent.reset, TrainEvent.trainFold p.1 p.2]))[j]?
            = some TrainEvent.reset := by
  induction ps with
  | nil =>
    intro i r f h
    simp at h
  | cons p t ih =>
    intro i r f h
    rw [List.flatMap_cons, List.cons_append, List.cons_append,
      List.nil_append] at h
    match i with
    | 0 => simp at h
    | 1 =>
      refine ⟨0, rfl, ?_⟩
      rw [List.flatMap_cons, List.cons_append]
      rfl
    | (n + 2) =>
      rw [List.getElem?_cons_succ, List.getElem?_cons_succ] at h
      obtain ⟨j, hj, hres⟩ := ih n r f h
      refine ⟨j + 2, by omega, ?_⟩
      rw [List.flatMap_cons, List.cons_append, List.cons_append,
        List.nil_append, List.getElem?_cons_succ, List.getElem?_cons_succ]
      exact hres

/-- C2: `train_seq2seq_kfold` both trains every repetition-fold pair and
never trains one without an immediately preceding weight reset: each
`trainFold` event in the run's trace is directly preceded by a `reset`
event. -/
theorem kfold_resets_before_every_fold (num_reps num_folds : Nat) :
    (∀ r f, r < num_reps → f < num_folds →
      TrainEvent.trainFold r f ∈ kfoldTrace num_reps num_folds) ∧
    (∀ i r f,
      (kfoldTrace num_reps num_folds)[i]? = some (TrainEvent.trainFold r f) →
      ∃ j, i = j + 1 ∧
        (kfoldTrace num_reps num_folds)[j]? = some TrainEvent.reset) := by
  constructor
  · intro r f hr hf
    rw [kfoldTrace, List.mem_flatMap]
    refine ⟨(r, f), ?_, by simp⟩
    rw [kfoldPairs, List.mem_flatMap]
    exact ⟨r, List.mem_range.mpr hr,
      List.mem_map.mpr ⟨f, List.mem_range.mpr hf, rfl⟩⟩
  · intro i r f h
    exact trace_train_preceded_by_reset _ i r f h

/-- Closed instance of C2 at `num_reps=1`, `num_folds=1`: fold (0,0) is
trained at trace position 1, and position 0 is a reset. -/
theorem kfold_resets_before_every_fold_witness :
    TrainEvent.trainFold 0 0 ∈ kfoldTrace 1 1 ∧
    ∃ j, 1 = j + 1 ∧ (kfoldTrace 1 1)[j]? = some TrainEvent.reset :=
  ⟨(kfold_resets_before_every_fold 1 1).1 0 0 (by decide) (by decide),
   (kfold_resets_before_every_fold 1 1).2 1 0 0 (by decide)⟩

/-- `hist_dict[key].append(v)`: appends `v` to the list bound at `key`.
Python dicts are modelled as insertion-ordered association lists read
through `List.lookup` (first binding wins). -/
def dictAppendAt {ε : Type} (d : List (String × List ε)) (k : String) (v : ε) :
    List (String × List ε) :=
  d.map (fun kv => if kv.1 = k then (kv.1, kv.2 ++ [v]) else kv)

/-- One iteration of the loop in `track_model_history` (train.py
lines 254-257) at dict entry `kv`: create `hist_dict[key] = []` when the
key is absent, then append the fit history's value for that key.  Since
`history.history` is a dict, indexing it at the iterated key returns the
iterated pair's value `kv.2`. -/
def trackStep {ε : Type} (d : List (String × List ε)) (kv : String × ε) :
    List (String × List ε) :=
  dictAppendAt (if (List.lookup kv.1 d).isSome then d else d ++ [(kv.1, [])])
    kv.1 kv.2

/-- `track_model_history(hist_dict, history)` (train.py lines 247-257):
the loop body applied over the keys of `history.history` in order; the
returned dict is the in-place mutated `hist_dict`. -/
def track_model_history {ε : Type} (hist_dict : List (String × List ε))
    (history : List (String × ε)) : List (String × List ε) :=
  history.foldl trackStep hist_dict

/-- `List.lookup` on a cons cell, with propositional key equality. -/
theorem lookup_cons_pair {ε : Type} (k ak : String) (av : ε)
    (t : List (String × ε)) :
    List.lookup k ((ak, av) :: t) = if k = ak then some av else List.lookup k t := by
  rcases eq_or_ne k ak with h | h
  · simp [List.lookup, h]
  · have hb : (k == ak) = false := by simp [beq_iff_eq, h]
    simp [List.lookup, h, hb]

/-- Appending at one key leaves lookups of every other key unchanged. -/
theorem lookup_dictAppendAt_ne {ε : Type} (d : List (String × List ε))
    (k k2 : String) (v : ε) (h : k ≠ k2) :
    List.lookup k (dictAppendAt d k2 v) = List.lookup k d := by
  induction d with
  | nil => rfl
  | cons a t ih =>
    rcases a with ⟨ak, av⟩
    by_cases ha : ak = k2
    · simp only [dictAppendAt, List.map_cons, if_pos ha]
      rw [lookup_cons_pair, lookup_cons_pair, if_neg (ha ▸ h), if_neg (ha ▸ h)]
      exact ih
    · simp only [dictAppendAt, List.map_cons, if_neg ha]
      rw [lookup_cons_pair, lookup_cons_pair]
      rcases eq_or_ne k ak with hk | hk
      · rw [if_pos hk, if_pos hk]
      · rw [if_neg hk, if_neg hk]
        exact ih

/-- Appending at a key maps its binding through list append. -/
theorem lookup_dictAppendAt_eq {ε : Type} (d : List (String × List ε))
    (k : String) (v : ε) :
    List.lookup k (dictAppendAt d k v)
      = (List.lookup k d).map (fun l => l ++ [v]) := by
  induction d with
  | nil => rfl
  | cons a t ih =>
    rcases a with ⟨ak, av⟩
    rcases eq_or_ne ak k with ha | ha
    · simp only [dictAppendAt, List.map_cons, if_pos ha]
      rw [lookup_cons_pair, lookup_cons_pair, if_pos ha.symm, if_pos ha.symm]
      rfl
    · simp only [dictAppendAt, List.map_cons, if_neg ha]
      rw [lookup_cons_pair, lookup_cons_pair, if_neg (Ne.symm ha),
        if_neg (Ne.symm ha)]
      exact ih

/-- Unfolding one loop iteration of `track_model_history`. -/
theorem track_model_history_cons {ε : Type} (d : List (String × List ε))
    (kv : String × ε) (t : List (String × ε)) :
    track_model_history d (kv :: t) = track_model_history (trackStep d kv) t :=
  rfl

/-- A key absent from an association list's key column looks up to
`none`. -/
theorem lookup_eq_none_of_not_mem_keys {ε : Type} (l : List (String × ε))
    (k : String) (h : k ∉ l.map Prod.fst) :
    List.lookup k l = none := by
  induction l with
  | nil => rfl
  | cons a t ih =>
    rcases a with ⟨ak, av⟩
    rw [lookup_cons_pair]
    simp only [List.map_cons, List.mem_cons, not_or] at h
    rw [if_neg h.1]
    exact ih h.2

/-- A `trackStep` at one key leaves every other key's binding
unchanged. -/
theorem lookup_trackStep_ne {ε : Type} (d : List (String × List ε))
    (kv : String × ε) (k : String) (h : k ≠ kv.1) :
    List.lookup k (trackStep d kv) = List.lookup k d := by
  unfold trackStep
  rw [lookup_dictAppendAt_ne _ _ _ _ h]
  by_cases hs : (List.lookup kv.1 d).isSome
  · rw [if_pos hs]
  · rw [if_neg hs, List.lookup_append]
    have hnone : List.lookup k [(kv.1, ([] : List ε))] = none := by
      rw [lookup_cons_pair, if_neg h]
      rfl
    rw [hnone, Option.or_none]

/-- A `trackStep` at key `kv.1` appends `kv.2` to that key's (possibly
freshly created) binding. -/
theorem lookup_trackStep_eq {ε : Type} (d : List (String × List ε))
    (kv : String × ε) :
    List.lookup kv.1 (trackStep d kv)
      = some ((List.lookup kv.1 d).getD [] ++ [kv.2]) := by
  unfold trackStep
  rw [lookup_dictAppendAt_eq]
  by_cases hs : (List.lookup kv.1 d).isSome
  · rw [if_pos hs]
    obtain ⟨w, hw⟩ := Option.isSome_iff_exists.mp hs
    rw [hw]
    rfl
  · rw [if_neg hs]
    have hn : List.lookup kv.1 d = none := Option.not_isSome_iff_eq_none.mp hs
    rw [List.lookup_append, hn, Option.none_or, lookup_cons_pair, if_pos rfl]
    rfl

/-- Keys the fit history does not mention keep their bindings through
`track_model_history`. -/
theorem track_model_history_not_mentioned {ε : Type}
    (history : List (String × ε)) (hist_dict : List (String × List ε))
    (k : String) (h : List.lookup k history = none) :
    List.lookup k (track_model_history hist_dict history)
      = List.lookup k hist_dict := by
  induction history generalizing hist_dict with
  | nil => rfl
  | cons kv t ih =>
    rcases kv with ⟨hk, hv⟩
    rw [lookup_cons_pair] at h
    by_cases hkk : k = hk
    · rw [if_pos hkk] at h
      exact absurd h (by simp)
    · rw [if_neg hkk] at h
      rw [track_model_history_cons, ih _ h, lookup_trackStep_ne _ _ _ hkk]

/-- Keys the fit history mentions get that history's value appended to
their (possibly freshly created) binding. -/
theorem track_model_history_appends {ε : Type}
    (history : List (String × ε)) (hist_dict : List (String × List ε))
    (hnd : (history.map Prod.fst).Nodup)
    (k : String) (v : ε) (hkv : List.lookup k history = some v) :
    List.lookup k (track_model_history hist_dict history)
      = some ((List.lookup k hist_dict).getD [] ++ [v]) := by
  induction history generalizing hist_dict with
  | nil => exact absurd hkv (by simp)
  | cons kv t ih =>
    rcases kv with ⟨hk, hv⟩
    rw [lookup_cons_pair] at hkv
    rw [track_model_history_cons]
    by_cases hkk : k = hk
    · rw [if_pos hkk] at hkv
      injection hkv with hveq
      subst hkk
      have hpair := List.nodup_cons.mp (show (k :: t.map Prod.fst).Nodup from hnd)
      have hknot : List.lookup k t = none :=
        lookup_eq_none_of_not_mem_keys t k hpair.1
      rw [track_model_history_not_mentioned t _ k hknot,
        lookup_trackStep_eq hist_dict (k, hv), hveq]
    · rw [if_neg hkk] at hkv
      have hnd2 : (t.map Prod.fst).Nodup :=
        (List.nodup_cons.mp (show (hk :: t.map Prod.fst).Nodup from hnd)).2
      rw [ih _ hnd2 hkv, lookup_trackStep_ne _ _ _ hkk]

/-- C7: `track_model_history(hist_dict, history)` appends, for every key
of the fit history, that key's per-epoch value sequence to
`hist_dict[key]` (the key being first bound to an empty list when
absent), and leaves every key the fit history does not mention
unchanged. -/
theorem track_model_history_spec {ε : Type}
    (hist_dict : List (String × List ε)) (history : List (String × ε))
    (hnd : (history.map Prod.fst).Nodup) :
    (∀ k v, List.lookup k history = some v →
      List.lookup k (track_model_history hist_dict history)
        = some ((List.lookup k hist_dict).getD [] ++ [v])) ∧
    (∀ k, List.lookup k history = none →
      List.lookup k (track_model_history hist_dict history)
        = List.lookup k hist_dict) :=
  ⟨fun k v h => track_model_history_appends history hist_dict hnd k v h,
   fun k h => track_model_history_not_mentioned history hist_dict k h⟩

/-- Closed instance of C7: merging a fit history with keys `accuracy`
and `val_loss` into a dict holding `accuracy` and `loss`. -/
theorem track_model_history_spec_witness :
    List.lookup "accuracy"
        (track_model_history [("accuracy", [[1]]), ("loss", [[9]])]
          [("accuracy", ([2] : List Int)), ("val_loss", [3])])
      = some ([[1]] ++ [[2]]) ∧
    List.lookup "loss"
        (track_model_history [("accuracy", [[1]]), ("loss", [[9]])]
          [("accuracy", ([2] : List Int)), ("val_loss", [3])])
      = List.lookup "loss" [("accuracy", [[1]]), ("loss", [[9]])] :=
  ⟨(track_model_history_spec [("accuracy", [[1]]), ("loss", [[9]])]
      [("accuracy", ([2] : List Int)), ("val_loss", [3])] (by decide)).1
      "accuracy" [2] (by decide),
   (track_model_history_spec [("accuracy", [[1]]), ("loss", [[9]])]
      [("accuracy", ([2] : List Int)), ("val_loss", [3])] (by decide)).2
      "loss" (by decide)⟩

/-- The `histories` dict built by `train_seq2seq_kfold` (train.py
lines 117 and 142): starting from `{'accuracy': [], 'loss': []}`, the
fit history of each repetition-fold call is merged in loop order by
`track_model_history`.  `fitHist r f` is the `history.history` dict the
fit routine produced for repetition `r`, fold `f`. -/
def kfoldHistories (num_reps num_folds : Nat)
    (fitHist : Nat → Nat → List (String × List Int)) :
    List (String × List (List Int)) :=
  ((kfoldPairs num_reps num_folds).map (fun p => fitHist p.1 p.2)).foldl
    track_model_history [("accuracy", []), ("loss", [])]

/-- Merging a run of fit histories that all record key `k` grows `k`'s
entry list by one element per history. -/
theorem foldl_track_model_history_length {ε : Type}
    (hs : List (List (String × ε))) (d0 : List (String × List ε)) (k : String)
    (hnd : ∀ h ∈ hs, (List.map Prod.fst h).Nodup)
    (hmem : ∀ h ∈ hs, (List.lookup k h).isSome) :
    ((List.lookup k (hs.foldl track_model_history d0)).getD []).length
      = ((List.lookup k d0).getD []).length + hs.length := by
  induction hs generalizing d0 with
  | nil => simp
  | cons h t ih =>
    obtain ⟨v, hv⟩ := Option.isSome_iff_exists.mp (hmem h (by simp))
    have hstep := track_model_history_appends h d0 (hnd h (by simp)) k v hv
    show ((List.lookup k
        (t.foldl track_model_history (track_model_history d0 h))).getD []).length = _
    rw [ih _ (fun x hx => hnd x (by simp [hx])) (fun x hx => hmem x (by simp [hx])),
      hstep]
    simp only [Option.getD_some, List.length_append, List.length_cons,
      List.length_nil]
    omega

/-- Any key's entry list in the initial `histories` dict is empty. -/
theorem lookup_init_histories (k : String) :
    ((List.lookup k
      [("accuracy", ([] : List (List Int))), ("loss", [])]).getD []).length = 0 := by
  rw [lookup_cons_pair]
  rcases eq_or_ne k "accuracy" with h | h
  · rw [if_pos h]
    rfl
  · rw [if_neg h, lookup_cons_pair]
    rcases eq_or_ne k "loss" with h2 | h2
    · rw [if_pos h2]
      rfl
    · rw [if_neg h2]
      rfl

/-- The nested loops visit exactly `num_reps * num_folds` pairs. -/
theorem kfoldPairs_length (num_reps num_folds : Nat) :
    (kfoldPairs num_reps num_folds).length = num_reps * num_folds := by
  rw [kfoldPairs]
  induction num_reps with
  | zero => simp
  | succ n ih =>
    rw [List.range_succ, List.flatMap_append, List.length_append, ih]
    simp [Nat.succ_mul]

/-- Membership in the visited (repetition, fold) pairs. -/
theorem mem_kfoldPairs (num_reps num_folds : Nat) (p : Nat × Nat) :
    p ∈ kfoldPairs num_reps num_folds ↔ p.1 < num_reps ∧ p.2 < num_folds := by
  rcases p with ⟨r, f⟩
  simp only [kfoldPairs, List.mem_flatMap, List.mem_map, List.mem_range,
    Prod.mk.injEq]
  constructor
  · rintro ⟨a, ha, b, hb, rfl, rfl⟩
    exact ⟨ha, hb⟩
  · rintro ⟨hr, hf⟩
    exact ⟨r, hr, f, hf, rfl, rfl⟩

/-- C6: every metric key recorded by all the per-fold fit histories
maps, in the histories dict returned by `train_seq2seq_kfold`, to
exactly `num_reps * num_folds` per-epoch value sequences — one per
fold-repetition. -/
theorem kfold_histories_one_entry_per_fold_rep (num_reps num_folds : Nat)
    (fitHist : Nat → Nat → List (String × List Int)) (k : String)
    (hnd : ∀ r, r < num_reps → ∀ f, f < num_folds →
      (List.map Prod.fst (fitHist r f)).Nodup)
    (hmem : ∀ r, r < num_reps → ∀ f, f < num_folds →
      (List.lookup k (fitHist r f)).isSome) :
    ((List.lookup k (kfoldHistories num_reps num_folds fitHist)).getD []).length
      = num_reps * num_folds := by
  rw [kfoldHistories, foldl_track_model_history_length _ _ k
    (fun h hh => by
      obtain ⟨p, hp, rfl⟩ := List.mem_map.mp hh
      have hm := (mem_kfoldPairs _ _ p).mp hp
      exact hnd p.1 hm.1 p.2 hm.2)
    (fun h hh => by
      obtain ⟨p, hp, rfl⟩ := List.mem_map.mp hh
      have hm := (mem_kfoldPairs _ _ p).mp hp
      exact hmem p.1 hm.1 p.2 hm.2),
    lookup_init_histories, List.length_map, kfoldPairs_length, Nat.zero_add]

/-- Closed instance of C6 at one repetition and two folds: `loss` gets
two entries. -/
theorem kfold_histories_one_entry_per_fold_rep_witness :
    ((List.lookup "loss"
      (kfoldHistories 1 2 (fun _ _ => [("loss", [0])]))).getD []).length = 1 * 2 :=
  kfold_histories_one_entry_per_fold_rep 1 2 (fun _ _ => [("loss", [0])]) "loss"
    (by decide) (by decide)

/-- The error a Python call raises. -/
inductive PyError where
  | typeError : PyError
  deriving DecidableEq

/-- Python call-time keyword binding: when a keyword is supplied both
explicitly at the call site and through an unpacked `**kwargs` dict, the
call raises `TypeError` (got multiple values for keyword argument);
otherwise the body runs. -/
def pyCallKw (explicitKw : List String) (starKw : List String)
    (body : Except PyError Unit) : Except PyError Unit :=
  if explicitKw.any (fun k => decide (k ∈ starKw)) then
    Except.error PyError.typeError
  else body

/-- Keyword-bindable parameter names of `train_seq2seq_single_fold`
(train.py lines 147-150); extra keywords flowing in that match one of
these bind the parameter instead of reaching its `**kwargs`. -/
def singleFoldNamedParams : List String :=
  ["train_model", "inf_enc", "inf_dec", "X", "X_prior", "y",
   "train_ind", "test_ind", "epochs", "callbacks", "mixup_dict",
   "jitter_dict"]

/-- Keyword flow of `train_seq2seq_single_fold` (train.py
lines 206-210): its leftover `**kwargs` is unpacked into the
`train_seq2seq` call, which already receives the explicit keywords
`batch_size=X_train.shape[0]`, `epochs`, `validation_data` and
`callbacks`. -/
def train_seq2seq_single_fold_kw (kwargs : List String) : Except PyError Unit :=
  pyCallKw ["batch_size", "epochs", "validation_data", "callbacks"] kwargs
    (Except.ok ())

/-- Keyword flow of `train_seq2seq_kfold` (train.py lines 131-137): the
single-fold call passes `epochs`, `callbacks`, `mixup_dict` and
`jitter_dict` explicitly plus the forwarded `**kwargs`; forwarded keys
naming a parameter of `train_seq2seq_single_fold` are absorbed by the
binding, the rest become its `**kwargs`. -/
def train_seq2seq_kfold_kw (kwargs : List String) : Except PyError Unit :=
  pyCallKw ["epochs", "callbacks", "mixup_dict", "jitter_dict"] kwargs
    (train_seq2seq_single_fold_kw
      (kwargs.filter (fun k => ¬ singleFoldNamedParams.contains k)))

/-- C4: every call of `train_seq2seq_kfold` or of
`train_seq2seq_single_fold` that forwards a `batch_size` keyword — as
the repository's own training script `train_rnn_gpu.py` does — raises
`TypeError`: `batch_size` travels through `**kwargs` into the
`train_seq2seq` call, which already passes `batch_size` explicitly. -/
theorem batch_size_kwarg_raises_type_error (kwargs : List String)
    (h : "batch_size" ∈ kwargs) :
    train_seq2seq_kfold_kw kwargs = Except.error PyError.typeError ∧
    train_seq2seq_single_fold_kw kwargs = Except.error PyError.typeError := by
  have hsingle : ∀ kw : List String, "batch_size" ∈ kw →
      train_seq2seq_single_fold_kw kw = Except.error PyError.typeError := by
    intro kw hkw
    rw [train_seq2seq_single_fold_kw, pyCallKw, if_pos]
    rw [List.any_eq_true]
    exact ⟨"batch_size", by simp, by simpa using hkw⟩
  refine ⟨?_, hsingle kwargs h⟩
  rw [train_seq2seq_kfold_kw, pyCallKw]
  by_cases hc : (["epochs", "callbacks", "mixup_dict", "jitter_dict"]).any
      (fun k => decide (k ∈ kwargs)) = true
  · rw [if_pos hc]
  · rw [if_neg hc]
    apply hsingle
    rw [List.mem_filter]
    exact ⟨h, by decide⟩

/-- Closed instance of C4 at the exact extra keywords the repository's
training script passes to `train_seq2seq_kfold`
(train_rnn_gpu.py lines 114-122): `batch_size` and `verbose`. -/
theorem batch_size_kwarg_raises_type_error_witness :
    train_seq2seq_kfold_kw ["batch_size", "verbose"]
        = Except.error PyError.typeError ∧
    train_seq2seq_single_fold_kw ["batch_size", "verbose"]
        = Except.error PyError.typeError :=
  batch_size_kwarg_raises_type_error ["batch_size", "verbose"] (by simp)

/-- numpy fancy indexing `X[ind]`: the rows of `X` selected by the index
array, in index order. -/
def sliceIdx {α : Type} [Inhabited α] (X : List α) (ind : List Nat) : List α :=
  ind.map (fun i => X.getD i default)

/-- The `mixup_dict` of `train_seq2seq_single_fold`: augmentation
strength and per-observation class labels. -/
structure MixupDict where
  alpha : Int
  labels : List Int

/-- The `jitter_dict` of `train_seq2seq_single_fold`: jitter offsets,
window length and sampling rate. -/
structure JitterDict where
  jitter_vals : List Int
  win_len : Nat
  fs : Nat

/-- The arguments `train_seq2seq_single_fold` hands `train_seq2seq`
and hence the fit routine (train.py lines 206-210). -/
structure FitArgs (α β γ : Type) where
  x_train : List α
  x_prior_train : List β
  y_train : List γ
  batch_size : Nat
  val_x : List α
  val_x_prior : List β
  val_y : List γ
  deriving DecidableEq

/-- Data flow of `train_seq2seq_single_fold` from slicing to the
`train_seq2seq` call (train.py lines 175-210).  The augmentation
collaborators `augment_mixup` and `augment_time_jitter` live outside the
core (processing_utils.data_augmentation) and are taken as opaque
function parameters: `augMixup` receives the alpha and the sliced
labels, `augJitter` the jitter values (the dict's for training data,
`[0]` for test data), window length and sampling rate. -/
def train_seq2seq_single_fold_fit {α β γ : Type}
    [Inhabited α] [Inhabited β] [Inhabited γ]
    (augMixup : Int → List Int →
      List α × List β × List γ → List α × List β × List γ)
    (augJitter : List Int → Nat → Nat →
      List α × List β × List γ → List α × List β × List γ)
    (X : List α) (X_prior : List β) (y : List γ)
    (train_ind test_ind : List Nat)
    (mixup_dict : Option MixupDict) (jitter_dict : Option JitterDict) :
    FitArgs α β γ :=
  let X_train := sliceIdx X train_ind
  let X_test := sliceIdx X test_ind
  let X_prior_train := sliceIdx X_prior train_ind
  let X_prior_test := sliceIdx X_prior test_ind
  let y_train := sliceIdx y train_ind
  let y_test := sliceIdx y test_ind
  let train3 :=
    match mixup_dict with
    | some md =>
      augMixup md.alpha (sliceIdx md.labels train_ind)
        (X_train, X_prior_train, y_train)
    | none => (X_train, X_prior_train, y_train)
  let train4 :=
    match jitter_dict with
    | some jd => augJitter jd.jitter_vals jd.win_len jd.fs train3
    | none => train3
  let test4 :=
    match jitter_dict with
    | some jd => augJitter [0] jd.win_len jd.fs (X_test, X_prior_test, y_test)
    | none => (X_test, X_prior_test, y_test)
  { x_train := train4.1
    x_prior_train := train4.2.1
    y_train := train4.2.2
    batch_size := train4.1.length
    val_x := test4.1
    val_x_prior := test4.2.1
    val_y := test4.2.2 }

/-- C5: with `mixup_dict=None` and `jitter_dict=None` and index arrays
valid for the shared leading dimension, the fit routine receives
exactly the sliced training data `X[train_ind]`, `X_prior[train_ind]`,
`y[train_ind]` and validation data
`([X[test_ind], X_prior[test_ind]], y[test_ind])`, whatever the
augmentation collaborators would do: no augmentation or trimming is
applied. -/
theorem single_fold_fit_args_without_augmentation {α β γ : Type}
    [Inhabited α] [Inhabited β] [Inhabited γ]
    (augMixup : Int → List Int →
      List α × List β × List γ → List α × List β × List γ)
    (augJitter : List Int → Nat → Nat →
      List α × List β × List γ → List α × List β × List γ)
    (X : List α) (X_prior : List β) (y : List γ)
    (train_ind test_ind : List Nat)
    (hvalid : ∀ i ∈ train_ind ++ test_ind,
      i < X.length ∧ i < X_prior.length ∧ i < y.length) :
    train_seq2seq_single_fold_fit augMixup augJitter X X_prior y
        train_ind test_ind none none
      = { x_train := sliceIdx X train_ind
          x_prior_train := sliceIdx X_prior train_ind
          y_train := sliceIdx y train_ind
          batch_size := (sliceIdx X train_ind).length
          val_x := sliceIdx X test_ind
          val_x_prior := sliceIdx X_prior test_ind
          val_y := sliceIdx y test_ind } :=
  rfl

/-- Closed instance of C5 at a concrete three-observation data set split
into two training rows and one test row. -/
theorem single_fold_fit_args_without_augmentation_witness :
    train_seq2seq_single_fold_fit (fun _ _ t => t) (fun _ _ _ t => t)
        [10, 20, 30] [4, 5, 6] ([7, 8, 9] : List Int) [0, 2] [1] none none
      = { x_train := sliceIdx [10, 20, 30] [0, 2]
          x_prior_train := sliceIdx [4, 5, 6] [0, 2]
          y_train := sliceIdx ([7, 8, 9] : List Int) [0, 2]
          batch_size := (sliceIdx ([10, 20, 30] : List Int) [0, 2]).length
          val_x := sliceIdx [10, 20, 30] [1]
          val_x_prior := sliceIdx [4, 5, 6] [1]
          val_y := sliceIdx ([7, 8, 9] : List Int) [1] } :=
  single_fold_fit_args_without_augmentation (fun _ _ t => t) (fun _ _ _ t => t)
    [10, 20, 30] [4, 5, 6] [7, 8, 9] [0, 2] [1] (by decide)

/-- A linear congruential PRNG step: the explicit stand-in for the
partitioner's random source. -/
def lcg (s : Nat) : Nat := (1103515245 * s + 12345) % 4294967296

/-- Deterministic shuffle of an index list driven by an `lcg` seed:
repeatedly extracts the element at the PRNG-chosen position. -/
def pseudoShuffle (s : Nat) (l : List Nat) : List Nat :=
  match l with
  | [] => []
  | a :: t =>
    let i := s % (a :: t).length
    (a :: t).getD i 0 :: pseudoShuffle (lcg s) ((a :: t).eraseIdx i)
termination_by l.length
decreasing_by
  rename_i a
  have hi : s % (a :: is).length < (a :: is).length :=
    Nat.mod_lt _ (by simp)
  simp only [List.length_eraseIdx, List.length_cons]
  simp only [List.length_cons] at hi
  rw [if_pos hi]
  omega

/-- Cutting an ordering `idx` of the `n` observation indices into
`n_splits` consecutive test chunks, the first `n % n_splits` chunks one
element larger; each fold's train side is every other index in
ascending order. -/
def kfoldChunks (idx : List Nat) (n_splits n : Nat) :
    List (List Nat × List Nat) :=
  let sizes := (List.range n_splits).map
    (fun i => n / n_splits + if i < n % n_splits then 1 else 0)
  (splitBySizes sizes idx).map
    (fun test => ((List.range n).filter (fun j => ¬ test.contains j), test))

/-- Modelled from the spec: a seeded split of the external randomized
k-fold partitioner (`sklearn.model_selection.KFold`, which is not part
of this repository).  Per the spec's "disjoint ordered index subsets of
the observation axis ... regenerated per repetition by a randomized
k-fold partitioner" and "same random seed ⇒ same fold partition", the
shuffle of the `n` observation indices is derived from the seed
alone. -/
def kfoldSplitSeeded (seed n_splits n : Nat) : List (List Nat × List Nat) :=
  kfoldChunks (pseudoShuffle seed (List.range n)) n_splits n

/-- `KFold(n_splits=num_folds, shuffle=True, random_state=rand_state)`
as constructed once on train.py line 104: the object stores exactly
these fields and holds no advancing RNG state of its own. -/
structure KFoldCV where
  n_splits : Nat
  shuffle : Bool
  random_state : Option Nat

/-- Modelled from the spec: one `cv.split(X)` call over `n`
observations.  With a stored integer seed the shuffle is re-derived
from that seed alone and the global RNG state `g` is untouched; with
`random_state=None` the shuffle seed is drawn from the global RNG,
advancing it; without `shuffle` the indices keep their natural
order. -/
def KFoldCV.split (cv : KFoldCV) (n : Nat) (g : Nat) :
    List (List Nat × List Nat) × Nat :=
  if cv.shuffle then
    match cv.random_state with
    | some s => (kfoldSplitSeeded s cv.n_splits n, g)
    | none => (kfoldSplitSeeded g cv.n_splits n, lcg g)
  else
    (kfoldChunks (List.range n) cv.n_splits n, g)

/-- The per-repetition fold sequences `train_seq2seq_kfold` consumes:
`cv.split(X)` is re-invoked at the top of every repetition (train.py
line 124) on the same `cv` object, the global RNG state threaded
through. -/
def kfoldRepSplitsAux (cv : KFoldCV) (n : Nat) :
    Nat → Nat → List (List (List Nat × List Nat))
  | _, 0 => []
  | g, r + 1 =>
    let p := cv.split n g
    p.1 :: kfoldRepSplitsAux cv n p.2 r

/-- All `num_reps` fold sequences of one `train_seq2seq_kfold` run,
starting from global RNG state `g0`. -/
def kfoldRepSplits (cv : KFoldCV) (n num_reps g0 : Nat) :
    List (List (List Nat × List Nat)) :=
  kfoldRepSplitsAux cv n g0 num_reps

/-- With a stored integer seed, every repetition's split is the same
seeded partition, independent of the global RNG state. -/
theorem kfoldRepSplitsAux_seeded (k n s : Nat) :
    ∀ (num_reps g : Nat),
      kfoldRepSplitsAux ⟨k, true, some s⟩ n g num_reps
        = List.replicate num_reps (kfoldSplitSeeded s k n) := by
  intro num_reps
  induction num_reps with
  | zero => intro g; rfl
  | succ r ih =>
    intro g
    rw [kfoldRepSplitsAux, List.replicate_succ]
    show (kfoldSplitSeeded s k n) :: kfoldRepSplitsAux ⟨k, true, some s⟩ n g r = _
    rw [ih g]

/-- C8: with a fixed non-None `random_state`, the partitioner used by
`train_seq2seq_kfold` is deterministic: two runs started from arbitrary
global RNG states produce identical per-repetition fold sequences, and
within one run every pair of repetitions yields the identical sequence
of (train, test) index sets. -/
theorem kfold_partitioner_deterministic (s k n num_reps g g2 : Nat) :
    kfoldRepSplits ⟨k, true, some s⟩ n num_reps g
        = kfoldRepSplits ⟨k, true, some s⟩ n num_reps g2 ∧
    ∀ r1, r1 < num_reps → ∀ r2, r2 < num_reps →
      (kfoldRepSplits ⟨k, true, some s⟩ n num_reps g).getD r1 []
        = (kfoldRepSplits ⟨k, true, some s⟩ n num_reps g).getD r2 [] := by
  constructor
  · rw [kfoldRepSplits, kfoldRepSplits, kfoldRepSplitsAux_seeded,
      kfoldRepSplitsAux_seeded]
  · intro r1 h1 r2 h2
    rw [kfoldRepSplits, kfoldRepSplitsAux_seeded]
    rw [List.getD_eq_getElem _ _ (by simpa using h1),
      List.getD_eq_getElem _ _ (by simpa using h2),
      List.getElem_replicate, List.getElem_replicate]

/-- Closed instance of C8: seed 1, two folds over four observations,
two repetitions, two different global RNG states. -/
theorem kfold_partitioner_deterministic_witness :
    kfoldRepSplits ⟨2, true, some 1⟩ 4 2 0
        = kfoldRepSplits ⟨2, true, some 1⟩ 4 2 99 ∧
    (kfoldRepSplits ⟨2, true, some 1⟩ 4 2 0).getD 0 []
        = (kfoldRepSplits ⟨2, true, some 1⟩ 4 2 0).getD 1 [] :=
  ⟨(kfold_partitioner_deterministic 1 2 4 2 0 99).1,
   (kfold_partitioner_deterministic 1 2 4 2 0 99).2 0 (by decide) 1 (by decide)⟩

/-- `np.squeeze`: removes every length-one axis from the shape and
leaves the flat data untouched. -/
def npSqueeze (t : Tensor) : Tensor :=
  { shape := t.shape.filter (fun d => d ≠ 1), data := t.data }

/-- A loaded `.mat` mapping (`scipy.io.loadmat` result): named arrays. -/
def MatData : Type := List (String × Tensor)

/-- `get_feature_data(mat_data, feature_name)`
(feature_data_from_mat.py lines 15-16):
`np.squeeze(np.array(mat_data[feature_name]))`; a missing name is a
lookup failure (Python `KeyError`), modelled as `none`. -/
def get_feature_data (mat_data : MatData) (feature_name : String) :
    Option Tensor :=
  (List.lookup feature_name mat_data).map npSqueeze

/-- `get_high_gamma_data(filename)` after loading
(feature_data_from_mat.py lines 19-29): reads `hgTraceSig`, `hgMap` and
`phonSeqLabels` and returns them squeezed, in that order. -/
def get_high_gamma_data (mat_data : MatData) :
    Option (Tensor × Tensor × Tensor) := do
  let hg_trace ← get_feature_data mat_data "hgTraceSig"
  let hg_map ← get_feature_data mat_data "hgMap"
  let phon_labels ← get_feature_data mat_data "phonSeqLabels"
  return (hg_trace, hg_map, phon_labels)

/-- C9: on any `.mat` mapping holding the arrays `hgTraceSig`, `hgMap`
and `phonSeqLabels`, `get_high_gamma_data` returns exactly the triple of
their squeezes in that order, where squeeze removes all length-one axes
and changes nothing else (data and remaining axes untouched). -/
theorem get_high_gamma_data_returns_squeezed_triple (mat_data : MatData)
    (t1 t2 t3 : Tensor)
    (h1 : List.lookup "hgTraceSig" mat_data = some t1)
    (h2 : List.lookup "hgMap" mat_data = some t2)
    (h3 : List.lookup "phonSeqLabels" mat_data = some t3) :
    get_high_gamma_data mat_data = some (npSqueeze t1, npSqueeze t2, npSqueeze t3) ∧
    (∀ t : Tensor, (npSqueeze t).shape = t.shape.filter (fun d => d ≠ 1) ∧
      (npSqueeze t).data = t.data) := by
  constructor
  · rw [get_high_gamma_data]
    simp [get_feature_data, h1, h2, h3]
  · intro t
    exact ⟨rfl, rfl⟩

/-- Closed instance of C9 at a concrete three-array mapping. -/
theorem get_high_gamma_data_returns_squeezed_triple_witness :
    get_high_gamma_data
        [("hgTraceSig", Tensor.mk [1, 2] [1, 2]),
         ("hgMap", Tensor.mk [2, 1] [3, 4]),
         ("phonSeqLabels", Tensor.mk [1, 3] [5, 6, 7])]
      = some (npSqueeze (Tensor.mk [1, 2] [1, 2]),
              npSqueeze (Tensor.mk [2, 1] [3, 4]),
              npSqueeze (Tensor.mk [1, 3] [5, 6, 7])) ∧
    (∀ t : Tensor, (npSqueeze t).shape = t.shape.filter (fun d => d ≠ 1) ∧
      (npSqueeze t).data = t.data) :=
  get_high_gamma_data_returns_squeezed_triple
    [("hgTraceSig", Tensor.mk [1, 2] [1, 2]),
     ("hgMap", Tensor.mk [2, 1] [3, 4]),
     ("phonSeqLabels", Tensor.mk [1, 3] [5, 6, 7])]
    (Tensor.mk [1, 2] [1, 2]) (Tensor.mk [2, 1] [3, 4])
    (Tensor.mk [1, 3] [5, 6, 7]) (by decide) (by decide) (by decide)
